import Mathlib

/-!
# Verification of the fitlins nistats interface core

Shallow embedding of the contrast-specification and second-level aggregation
logic of `fitlins/interfaces/nistats.py`:

* `prepare_contrasts` — resolving declared contrasts against the regressor
  columns of a design (silent-skip of under-specified declarations);
* `_match` / `_flatten` — entity-metadata filtering of upstream inputs;
* the `SecondLevelModel._run_interface` pipeline — grouping design via
  `pd.get_dummies`, fixed-effects (FEMA) pass-through versus model fitting,
  and assembly of per-contrast output sequences.

Python dictionaries are modelled as association lists with first-match
lookup; the numeric weights are rationals; the external statistics engine
and the external fixed-effects combiner are parameters of the aggregator.
File writing (`to_filename`) is external I/O and is not modelled: output
lists collect the in-memory maps in the order the code appends their paths.
-/

/-- A Python value stored in an entity-metadata dictionary: the `None`
sentinel, a string, or an integer. -/
inductive PyVal where
  | none : PyVal
  | str : String → PyVal
  | int : Int → PyVal
deriving DecidableEq, Repr

/-- An entity-metadata dictionary mapping entity names such as subject or
task to values, modelled as an association list looked up by first match
(Python dict keys are unique). -/
abbrev Dict := List (String × PyVal)

/-- Dictionary lookup: `some` of the stored value when the key is present. -/
def dictFind? (d : Dict) (k : String) : Option PyVal :=
  (d.find? (fun p => p.1 == k)).map (fun p => p.2)

/-- Python `d.get(k)`, which returns `None` when the key is absent. -/
def dictGet (d : Dict) (k : String) : PyVal :=
  (dictFind? d k).getD PyVal.none

/-- Key membership, Python `k in d`. -/
def dictContains (d : Dict) (k : String) : Bool :=
  d.any (fun p => p.1 == k)

/-- Removal of a key from a dictionary (used to state the removing-a-
required-key property of the spec). -/
def dictErase (d : Dict) (k : String) : Dict :=
  d.filter (fun p => !(p.1 == k))

/-- Source `_match(query, metadata)`: `False` as soon as one query key has
`metadata.get(key) != val`, else `True`. -/
def _match (query metadata : Dict) : Bool :=
  query.all (fun p => dictGet metadata p.1 == p.2)

/-- Source `_flatten(x)`: `[elem for sublist in x for elem in sublist]`. -/
def _flatten (x : List (List β)) : List β :=
  x.flatMap (fun sublist => sublist)

/-- One row of a contrast weight specification: a mapping from regressor
name to numeric weight. -/
abbrev WeightRow := List (String × ℚ)

/-- A contrast declaration as carried by `contrast_info`: fields `name`,
`weights`, `type`, and (at the second level) `entities`. -/
structure Contrast where
  name : String
  weights : List WeightRow
  type : String
  entities : Dict := []
deriving DecidableEq, Repr

/-- Source expression `row[col] if col in row else 0`: the declared weight
when the row mapping names the regressor, `0` otherwise. -/
def rowWeight (row : WeightRow) (col : String) : ℚ :=
  match row.find? (fun p => p.1 == col) with
  | some p => p.2
  | none => 0

/-- The dense weight matrix of one declaration: for every row and every
regressor in design-column order, fill in zeros for unnamed regressors. -/
def resolveWeights (weights : List WeightRow) (all_regressors : List String) :
    List (List ℚ) :=
  weights.map (fun row => all_regressors.map (fun col => rowWeight row col))

/-- Source flag `missing`: some row names a regressor with non-zero weight
that is not in `all_regressors` (the truthiness of the per-row comprehension
lists). -/
def contrastMissing (c : Contrast) (all_regressors : List String) : Bool :=
  c.weights.any (fun row =>
    row.any (fun p => p.2 != 0 && !(all_regressors.contains p.1)))

/-- Source `prepare_contrasts(contrasts, all_regressors)`. The undefined
traits sentinel (`not isdefined(contrasts)`) is modelled as `Option.none`. -/
def prepare_contrasts (contrasts : Option (List Contrast))
    (all_regressors : List String) : List (String × List (List ℚ) × String) :=
  match contrasts with
  | Option.none => []
  | Option.some cs =>
    cs.filterMap (fun c =>
      if contrastMissing c all_regressors then Option.none
      else Option.some (c.name, resolveWeights c.weights all_regressors, c.type))

/-- Python `zip` over three sequences: pairs entries position-wise and stops
at the shortest sequence. -/
def zip3 : List β → List γ → List δ → List (β × γ × δ)
  | b :: bs, c :: cs, d :: ds => (b, c, d) :: zip3 bs cs ds
  | _, _, _ => []

/-- The filtering loop of `SecondLevelModel._run_interface`: keep the
`(metadata, effect, variance)` triples whose metadata matches all of the
query entities. -/
def filterTriples (out_ents : Dict) (ms : List Dict) (es vs : List β) :
    List (Dict × β × β) :=
  (zip3 ms es vs).filter (fun t => _match out_ents t.1)

/-- Code-point comparison of characters, as Python compares strings. -/
def charLtNat (c d : Char) : Prop := c.toNat < d.toNat

/-- Lexicographic code-point comparison of character lists: the order by
which pandas sorts string category levels. -/
def lexLt : List Char → List Char → Bool
  | [], [] => false
  | [], _ :: _ => true
  | _ :: _, [] => false
  | c :: cs, d :: ds =>
    if c.toNat < d.toNat then true
    else if d.toNat < c.toNat then false
    else lexLt cs ds

/-- String comparison by code points (Python `<` on `str`). -/
def strLt (a b : String) : Bool := lexLt a.data b.data

/-- Insert a name into a strictly sorted duplicate-free list, keeping it
sorted and duplicate-free. -/
def insertUnique (x : String) : List String → List String
  | [] => [x]
  | y :: ys =>
    if x = y then y :: ys
    else if strLt x y then x :: y :: ys
    else y :: insertUnique x ys

/-- The sorted distinct values of a list: the category levels, in the order
`pd.get_dummies` assigns its columns. -/
def sortedUnique (l : List String) : List String :=
  l.foldl (fun acc n => insertUnique n acc) []

/-- One dummy-coded row: indicator of the given name against each column. -/
def oneHotRow (cols : List String) (n : String) : List ℕ :=
  cols.map (fun c => if n = c then 1 else 0)

/-- Model of `pd.get_dummies(names)`: columns are the sorted distinct names,
and each row one-hot encodes the corresponding entry of `names`. -/
def get_dummies (names : List String) : List String × List (List ℕ) :=
  (sortedUnique names, names.map (fun n => oneHotRow (sortedUnique names) n))

/-- The distinct values of a list in order of first appearance (what the
spec asserts about the grouping-design column order). -/
def firstSeenAux (seen : List String) : List String → List String
  | [] => []
  | x :: xs =>
    if seen.contains x then firstSeenAux seen xs
    else x :: firstSeenAux (x :: seen) xs

/-- Distinct names in first-appearance order. -/
def firstSeen (l : List String) : List String := firstSeenAux [] l

/-- Modelled from the spec: the external fixed-effects combiner
`nistats.contrasts.compute_fixed_effects` is not part of this repository;
the spec specifies it as inverse-variance weighting, returning the combined
effect `Σ(eᵢ/vᵢ)/Σ(1/vᵢ)` and the combined variance `1/Σ(1/vᵢ)` (the
accompanying statistic map is left to the engine and unused by any claim). -/
def ffxCombine (effects variances : List ℚ) : ℚ × ℚ :=
  let precisions := variances.map (fun v => 1 / v)
  let sumPrec := precisions.sum
  (((effects.zip precisions).map (fun p => p.1 * p.2)).sum / sumPrec, 1 / sumPrec)

/-- The output kinds a statistics engine can attach to a contrast. -/
inductive MapKind where
  | effect_size : MapKind
  | effect_variance : MapKind
  | z_score : MapKind
  | p_value : MapKind
  | stat : MapKind
deriving DecidableEq, Repr

/-- Source lines `con_ix = weights[0].astype(bool)` and
`dm_ix = mat.iloc[:, con_ix].any(axis=1)`: one boolean per grouping-design
row, true when the row is non-zero in some column with a non-zero entry in
the first weight row. -/
def femaSelection (row0 : List ℚ) (matRows : List (List ℕ)) : List Bool :=
  matRows.map (fun r => (r.zip row0).any (fun p => p.2 != 0 && p.1 != 0))

/-- Boolean-mask selection of list entries, `np.array(xs)[mask]`. -/
def maskSelect (mask : List Bool) (xs : List β) : List β :=
  ((xs.zip mask).filter (fun p => p.2)).map (fun p => p.1)

/-- The diagnostic of the IndexError numpy raises at `weights[0]` when the
resolved weight matrix has no rows. -/
def indexErrorMsg : String :=
  "index 0 is out of bounds for axis 0 with size 0"

/-- The per-contrast map computation of the second-level loop: FEMA contrasts
index `weights[0]` — which raises an IndexError, modelled as `Option.none`,
when the resolved weight matrix has no rows — then combine the mask-selected
effects and variances through the external combiner and yield exactly the
effect/variance/stat kinds; all other types query the fitted engine model.
`combine` and `engine` are the external statistics-engine collaborators. -/
def contrastMaps (combine : List β → List β → β × β × β)
    (engine : List β → List String × List (List ℕ) → List (List ℚ) → String →
      MapKind → Option β)
    (dm : List String × List (List ℕ))
    (filtered_effects filtered_variances : List β)
    (weights : List (List ℚ)) (ctype : String) :
    Option (MapKind → Option β) :=
  if ctype = "FEMA" then
    match weights.head? with
    | Option.none => Option.none
    | Option.some row0 =>
      let dmIx := femaSelection row0 dm.2
      let r := combine (maskSelect dmIx filtered_effects)
        (maskSelect dmIx filtered_variances)
      Option.some (fun k =>
        match k with
        | MapKind.effect_size => Option.some r.1
        | MapKind.effect_variance => Option.some r.2.1
        | MapKind.stat => Option.some r.2.2
        | _ => Option.none)
  else
    Option.some (engine filtered_effects dm weights ctype)

/-- The map of a given kind a contrast produced, `Option.none` when the
contrast computation itself failed or did not emit that kind. -/
def mapsAt (o : Option (MapKind → Option β)) (k : MapKind) : Option β :=
  match o with
  | Option.some m => m k
  | Option.none => Option.none

/-- The per-contrast metadata record: the dict literal with key contrast
bound to the name, key stat bound to the type, and the query entities
unpacked after them. With first-match lookup, listing `out_ents` first
reproduces the Python rule that the later-unpacked entities override the two
literal keys on collision. -/
def mkRecord (out_ents : Dict) (name ctype : String) : Dict :=
  out_ents ++ [("contrast", PyVal.str name), ("stat", PyVal.str ctype)]

/-- Append an optionally produced map to an output list. -/
def consIf (o : Option β) (l : List β) : List β :=
  match o with
  | Option.some a => a :: l
  | Option.none => l

/-- The six parallel accumulators of the second-level contrast loop. -/
structure LoopOut (β : Type) where
  effs : List β
  vars : List β
  zs : List β
  ps : List β
  stats : List β
  metas : List Dict
deriving DecidableEq, Repr

/-- The contrast loop: one metadata record per contrast, and one entry
appended to each per-kind list whenever the contrast produced that kind;
a failing per-contrast computation (the `weights[0]` IndexError of an
empty-matrix FEMA contrast) aborts the whole loop, as the exception
propagates out of the interface. -/
def contrastLoop (out_ents : Dict)
    (mapsFor : List (List ℚ) → String → Option (MapKind → Option β)) :
    List (String × List (List ℚ) × String) → Except String (LoopOut β)
  | [] => Except.ok ⟨[], [], [], [], [], []⟩
  | c :: rest =>
    match mapsFor c.2.1 c.2.2 with
    | Option.none => Except.error indexErrorMsg
    | Option.some maps =>
      match contrastLoop out_ents mapsFor rest with
      | Except.error e => Except.error e
      | Except.ok acc =>
        Except.ok
          ⟨consIf (maps MapKind.effect_size) acc.effs,
           consIf (maps MapKind.effect_variance) acc.vars,
           consIf (maps MapKind.z_score) acc.zs,
           consIf (maps MapKind.p_value) acc.ps,
           consIf (maps MapKind.stat) acc.stats,
           mkRecord out_ents c.1 c.2.2 :: acc.metas⟩

/-- The `_results` surface of `SecondLevelModel`: the z-score and p-value
collections are optional keys, set only when non-empty. -/
structure SLOutput (β : Type) where
  effect_maps : List β
  variance_maps : List β
  stat_maps : List β
  contrast_metadata : List Dict
  zscore_maps : Option (List β)
  pvalue_maps : Option (List β)
deriving DecidableEq, Repr

/-- String extraction for the contrast entry of a metadata record; the
first level always stores the contrast name as a string under this key. -/
def pyStr : PyVal → String
  | PyVal.str s => s
  | _ => ""

/-- The filtered `(metadata, effect, variance)` triples of one invocation. -/
def slFiltered (out_ents : Dict) (sm : List (List Dict))
    (em vm : List (List β)) : List (Dict × β × β) :=
  filterTriples out_ents (_flatten sm) (_flatten em) (_flatten vm)

/-- Source value `filtered_effects`. -/
def slEffects (out_ents : Dict) (sm : List (List Dict))
    (em vm : List (List β)) : List β :=
  (slFiltered out_ents sm em vm).map (fun t => t.2.1)

/-- Source value `filtered_variances`. -/
def slVariances (out_ents : Dict) (sm : List (List Dict))
    (em vm : List (List β)) : List β :=
  (slFiltered out_ents sm em vm).map (fun t => t.2.2)

/-- Source value `names`: the paired contrast names of the filtered inputs. -/
def slNames (out_ents : Dict) (sm : List (List Dict))
    (em vm : List (List β)) : List String :=
  (slFiltered out_ents sm em vm).map (fun t => pyStr (dictGet t.1 "contrast"))

/-- The contrasts resolved against the grouping-design columns. -/
def slContrasts (c0 : Contrast) (rest : List Contrast) (sm : List (List Dict))
    (em vm : List (List β)) : List (String × List (List ℚ) × String) :=
  prepare_contrasts (Option.some (c0 :: rest))
    (get_dummies (slNames c0.entities sm em vm)).1

/-- The per-contrast map computation of one invocation, with the grouping
design and the filtered inputs plugged in. -/
def slMaps (combine : List β → List β → β × β × β)
    (engine : List β → List String × List (List ℕ) → List (List ℚ) → String →
      MapKind → Option β)
    (c0 : Contrast) (sm : List (List Dict)) (em vm : List (List β)) :
    List (List ℚ) → String → Option (MapKind → Option β) :=
  contrastMaps combine engine (get_dummies (slNames c0.entities sm em vm))
    (slEffects c0.entities sm em vm) (slVariances c0.entities sm em vm)

/-- The diagnostic of the fatal insufficient-inputs error. -/
def insufficientInputsMsg : String :=
  "At least two inputs are required for a 't' for 'F' second level contrast"

/-- The core of `SecondLevelModel._run_interface`: filter the flattened
inputs by the query entities, build the grouping design, resolve the
second-level contrasts against its columns, abort when a non-FEMA contrast
would need a model fit with fewer than two inputs, and otherwise run the
contrast loop, whose own failure (the `weights[0]` IndexError) propagates
out. `c0 :: rest` is `contrast_info` (indexed at `[0]` for the query
entities, so it is non-empty). -/
def runSecondLevel (combine : List β → List β → β × β × β)
    (engine : List β → List String × List (List ℕ) → List (List ℚ) → String →
      MapKind → Option β)
    (c0 : Contrast) (rest : List Contrast)
    (sm : List (List Dict)) (em vm : List (List β)) :
    Except String (SLOutput β) :=
  let out_ents := c0.entities
  let filtered_effects := slEffects out_ents sm em vm
  let contrasts := slContrasts c0 rest sm em vm
  if contrasts.any (fun c => c.2.2 != "FEMA") = true ∧
      filtered_effects.length < 2 then
    Except.error insufficientInputsMsg
  else
    match contrastLoop out_ents (slMaps combine engine c0 sm em vm) contrasts with
    | Except.error e => Except.error e
    | Except.ok lo =>
      Except.ok
        { effect_maps := lo.effs
          variance_maps := lo.vars
          stat_maps := lo.stats
          contrast_metadata := lo.metas
          zscore_maps := if lo.zs.isEmpty then Option.none else Option.some lo.zs
          pvalue_maps := if lo.ps.isEmpty then Option.none else Option.some lo.ps }

/-- The claimed reading of FEMA input selection in which a grouping-design
column counts as weighted when ANY row of the weight matrix is non-zero
there (the code instead consults only the first row). -/
def specAnyRowMask (cols : List String) (weights : List (List ℚ))
    (names : List String) : List Bool :=
  names.map (fun n =>
    (List.range cols.length).any (fun j =>
      weights.any (fun row => row.getD j 0 != 0) && n == cols.getD j ""))

/-- The first-row FEMA selection mask over the grouping design built from
the paired names: an input is selected iff its contrast name is a
grouping-design column at which the FIRST row of the weight matrix is
non-zero. -/
def row0Mask (names : List String) (w : List (List ℚ)) : List Bool :=
  names.map (fun n =>
    ((sortedUnique names).zip (w.headD [])).any
      (fun cw => cw.2 != 0 && n == cw.1))

/-- Scenario A/B declaration: name `A-B`, weights `A:1, B:-1`, type `T`. -/
def declAB : Contrast := ⟨"A-B", [[("A", 1), ("B", -1)]], "T", []⟩

/-- A declaration with an empty weights list. -/
def emptyDecl : Contrast := ⟨"mean", [], "T", []⟩

/-- Metadata of an upstream input for contrast `A`. -/
def cexD1 : Dict := [("contrast", PyVal.str "A")]

/-- Metadata of an upstream input for contrast `B`. -/
def cexD2 : Dict := [("contrast", PyVal.str "B")]

/-- A second-level FEMA declaration over the first-level contrast `A`. -/
def cexFA : Contrast := ⟨"FA", [[("A", 1)]], "FEMA", []⟩

/-- A second-level `T` declaration over the first-level contrast `B`. -/
def cexTB : Contrast := ⟨"TB", [[("B", 1)]], "T", []⟩

/-- A second-level FEMA declaration with an EMPTY weights list: it is
retained by `prepare_contrasts` (the C8 edge case) but its resolved weight
matrix has no rows, so the FEMA branch raises at `weights[0]`. -/
def cexFEmpty : Contrast := ⟨"FE", [], "FEMA", []⟩

/-- A concrete stand-in external combiner reporting how many effects it was
given. -/
def cexCombine : List ℚ → List ℚ → ℚ × ℚ × ℚ :=
  fun es _ => ((es.length : ℚ), 0, 0)

/-- A concrete stand-in engine producing every output kind. -/
def cexSomeEngine : List ℚ → List String × List (List ℕ) → List (List ℚ) →
    String → MapKind → Option ℚ :=
  fun _ _ _ _ _ => Option.some 99

/-- A concrete stand-in engine producing no output kind. -/
def cexNoneEngine : List ℚ → List String × List (List ℕ) → List (List ℚ) →
    String → MapKind → Option ℚ :=
  fun _ _ _ _ _ => Option.none

/-- The output of the concrete all-FEMA single-input invocation built from
`cexFA` and `cexD1` with the stand-in combiner and silent engine. -/
def cexOut : SLOutput ℚ :=
  { effect_maps := [1]
    variance_maps := [0]
    stat_maps := [0]
    contrast_metadata := [[("contrast", PyVal.str "FA"),
      ("stat", PyVal.str "FEMA")]]
    zscore_maps := Option.none
    pvalue_maps := Option.none }

/-! ## Helper lemmas -/

theorem char_eq_of_toNat_eq {a b : Char} (h : a.toNat = b.toNat) : a = b :=
  Char.ext (UInt32.ext h)

theorem string_eq_of_data_eq {a b : String} (h : a.data = b.data) : a = b := by
  cases a; cases b; simp_all

theorem lexLt_trans : ∀ {a b c : List Char},
    lexLt a b = true → lexLt b c = true → lexLt a c = true
  | [], [], _, h1, _ => by simp [lexLt] at h1
  | [], _ :: _, [], _, h2 => by simp [lexLt] at h2
  | [], _ :: _, _ :: _, _, _ => by simp [lexLt]
  | _ :: _, [], _, h1, _ => by simp [lexLt] at h1
  | _ :: _, _ :: _, [], _, h2 => by simp [lexLt] at h2
  | a :: as, b :: bs, c :: cs, h1, h2 => by
    simp only [lexLt] at h1 h2 ⊢
    split_ifs at h1 h2 ⊢ <;> try omega
    all_goals try rfl
    all_goals try exact lexLt_trans h1 h2
    all_goals simp_all

theorem lexLt_irrefl : ∀ (a : List Char), lexLt a a = false
  | [] => rfl
  | c :: cs => by
    simp only [lexLt]
    split_ifs with h1 h2 <;> try omega
    exact lexLt_irrefl cs

theorem lexLt_total : ∀ {a b : List Char},
    a ≠ b → lexLt a b = true ∨ lexLt b a = true
  | [], [], h => absurd rfl h
  | [], _ :: _, _ => Or.inl (by simp [lexLt])
  | _ :: _, [], _ => Or.inr (by simp [lexLt])
  | a :: as, b :: bs, h => by
    simp only [lexLt]
    by_cases hab : a.toNat < b.toNat
    · simp [hab]
    · by_cases hba : b.toNat < a.toNat
      · simp [hab, hba]
      · have heq : a = b := char_eq_of_toNat_eq (by omega)
        subst heq
        have hne : as ≠ bs := fun hh => h (by rw [hh])
        rcases lexLt_total hne with h' | h' <;> simp [h'] <;> omega

theorem strLt_trans {a b c : String} (h1 : strLt a b = true)
    (h2 : strLt b c = true) : strLt a c = true :=
  lexLt_trans h1 h2

theorem strLt_irrefl (a : String) : strLt a a = false :=
  lexLt_irrefl a.data

theorem strLt_total {a b : String} (h : a ≠ b) :
    strLt a b = true ∨ strLt b a = true :=
  lexLt_total (fun hd => h (string_eq_of_data_eq hd))

theorem strLt_ne {a b : String} (h : strLt a b = true) : a ≠ b := by
  intro he
  subst he
  rw [strLt_irrefl] at h
  exact Bool.false_ne_true h

theorem mem_insertUnique (x a : String) :
    ∀ l : List String, (a ∈ insertUnique x l ↔ a = x ∨ a ∈ l)
  | [] => by simp [insertUnique]
  | y :: ys => by
    by_cases h1 : x = y
    · subst h1
      simp only [insertUnique, if_pos rfl]
      constructor
      · exact fun h => Or.inr h
      · rintro (rfl | h)
        · exact List.mem_cons_self _ _
        · exact h
    · by_cases h2 : strLt x y = true
      · simp only [insertUnique, if_neg h1, if_pos h2, List.mem_cons]
      · simp only [insertUnique, if_neg h1, if_neg h2, List.mem_cons,
          mem_insertUnique x a ys]
        tauto

theorem pairwise_insertUnique (x : String) :
    ∀ l : List String, l.Pairwise (fun a b => strLt a b = true) →
      (insertUnique x l).Pairwise (fun a b => strLt a b = true)
  | [], _ => by simp [insertUnique]
  | y :: ys, hp => by
    rcases List.pairwise_cons.mp hp with ⟨hy, hys⟩
    by_cases h1 : x = y
    · simpa [insertUnique, h1] using hp
    · by_cases h2 : strLt x y = true
      · simp only [insertUnique, if_neg h1, if_pos h2]
        refine List.pairwise_cons.mpr ⟨?_, hp⟩
        intro b hb
        rcases List.mem_cons.mp hb with rfl | hb
        · exact h2
        · exact strLt_trans h2 (hy b hb)
      · simp only [insertUnique, if_neg h1, if_neg h2]
        refine List.pairwise_cons.mpr ⟨?_, pairwise_insertUnique x ys hys⟩
        intro b hb
        rcases (mem_insertUnique x b ys).mp hb with rfl | hb
        · rcases strLt_total h1 with h | h
          · exact absurd h h2
          · exact h
        · exact hy b hb

theorem foldl_insertUnique_spec (l : List String) :
    ∀ acc : List String, acc.Pairwise (fun a b => strLt a b = true) →
      ((l.foldl (fun acc n => insertUnique n acc) acc).Pairwise
          (fun a b => strLt a b = true)
        ∧ ∀ a, a ∈ l.foldl (fun acc n => insertUnique n acc) acc ↔
            a ∈ acc ∨ a ∈ l) := by
  induction l with
  | nil => intro acc hacc; exact ⟨hacc, by simp⟩
  | cons x xs ih =>
    intro acc hacc
    rcases ih (insertUnique x acc) (pairwise_insertUnique x acc hacc) with ⟨h1, h2⟩
    refine ⟨h1, fun a => ?_⟩
    rw [List.foldl_cons, h2 a, mem_insertUnique, List.mem_cons]
    tauto

theorem sortedUnique_pairwise (l : List String) :
    (sortedUnique l).Pairwise (fun a b => strLt a b = true) :=
  (foldl_insertUnique_spec l [] List.Pairwise.nil).1

theorem mem_sortedUnique (l : List String) (a : String) :
    a ∈ sortedUnique l ↔ a ∈ l := by
  have := (foldl_insertUnique_spec l [] List.Pairwise.nil).2 a
  simpa [sortedUnique] using this

theorem sortedUnique_nodup (l : List String) : (sortedUnique l).Nodup :=
  (sortedUnique_pairwise l).imp (fun h => strLt_ne h)

theorem filterMap_if_eq_filter_map (p : γ → Bool) (g : γ → δ) (l : List γ) :
    l.filterMap (fun c => if p c then Option.none else Option.some (g c)) =
      (l.filter (fun c => !p c)).map g := by
  induction l with
  | nil => rfl
  | cons x xs ih =>
    by_cases h : p x = true <;>
      simp [List.filterMap_cons, List.filter_cons, h, ih]

theorem prepare_contrasts_some_eq (cs : List Contrast) (R : List String) :
    prepare_contrasts (Option.some cs) R =
      (cs.filter (fun c => !contrastMissing c R)).map
        (fun c => (c.name, resolveWeights c.weights R, c.type)) :=
  filterMap_if_eq_filter_map (fun c => contrastMissing c R) _ cs

theorem length_filter_add (p : γ → Bool) (l : List γ) :
    (l.filter p).length + (l.filter (fun c => !p c)).length = l.length := by
  induction l with
  | nil => rfl
  | cons x xs ih =>
    by_cases h : p x = true <;> simp [List.filter_cons, h, ← ih] <;> omega

theorem oneHotRow_entries (cols : List String) (n : String) :
    ∀ x ∈ oneHotRow cols n, x = 0 ∨ x = 1 := by
  intro x hx
  rcases List.mem_map.mp hx with ⟨c, _, rfl⟩
  by_cases h : n = c <;> simp [h]

theorem oneHotRow_not_mem (cols : List String) (n : String) (h : n ∉ cols) :
    (oneHotRow cols n).sum = 0 ∧ (oneHotRow cols n).count 1 = 0 := by
  induction cols with
  | nil => simp [oneHotRow]
  | cons c cs ih =>
    have hnc : n ≠ c := fun he => h (he ▸ List.mem_cons_self c cs)
    have hn : n ∉ cs := fun hm => h (List.mem_cons_of_mem c hm)
    rcases ih hn with ⟨h1, h2⟩
    simp [oneHotRow, hnc, List.count_cons] at h1 h2 ⊢
    exact ⟨h1, h2⟩

theorem oneHotRow_mem (cols : List String) (n : String) (hmem : n ∈ cols)
    (hnd : cols.Nodup) :
    (oneHotRow cols n).sum = 1 ∧ (oneHotRow cols n).count 1 = 1 := by
  induction cols with
  | nil => cases hmem
  | cons c cs ih =>
    rcases List.nodup_cons.mp hnd with ⟨hc, hnd'⟩
    by_cases h : n = c
    · subst h
      rcases oneHotRow_not_mem cs n hc with ⟨h1, h2⟩
      simp [oneHotRow, List.count_cons] at h1 h2 ⊢
      exact ⟨h1, h2⟩
    · have hn : n ∈ cs := by
        rcases List.mem_cons.mp hmem with h' | h'
        · exact absurd h' h
        · exact h'
      rcases ih hn hnd' with ⟨h1, h2⟩
      simp [oneHotRow, List.count_cons, h] at h1 h2 ⊢
      exact ⟨h1, h2⟩

theorem zip3_length : ∀ (a : List β) (b : List γ) (c : List δ),
    (zip3 a b c).length = min (min a.length b.length) c.length
  | [], b, c => by simp [zip3]
  | _ :: _, [], c => by simp [zip3]
  | _ :: _, _ :: _, [] => by simp [zip3]
  | _ :: as, _ :: bs, _ :: cs => by
    simp only [zip3, List.length_cons, zip3_length as bs cs]
    omega

theorem zip3_take : ∀ (a : List β) (b : List γ) (c : List δ) (n : ℕ),
    min (min a.length b.length) c.length ≤ n →
    zip3 (a.take n) (b.take n) (c.take n) = zip3 a b c
  | [], b, c, n, _ => by cases n <;> simp [zip3] <;> cases b <;> cases c <;> rfl
  | _ :: _, [], c, n, _ => by cases n <;> simp [zip3] <;> cases c <;> rfl
  | x :: as, y :: bs, [], n, _ => by cases n <;> simp [zip3]
  | x :: as, y :: bs, z :: cs, n, h => by
    match n with
    | 0 => simp at h
    | m + 1 =>
      simp only [List.take_succ_cons, zip3]
      rw [zip3_take as bs cs m (by simp at h; omega)]

theorem zip3_getD : ∀ (a : List β) (b : List γ) (c : List δ) (i : ℕ)
    (db : β) (dc : γ) (dd : δ),
    i < min (min a.length b.length) c.length →
    (zip3 a b c).getD i (db, dc, dd) = (a.getD i db, b.getD i dc, c.getD i dd)
  | [], _, _, i, _, _, _, h => by simp at h
  | _ :: _, [], _, i, _, _, _, h => by simp at h
  | _ :: _, _ :: _, [], i, _, _, _, h => by simp at h
  | x :: as, y :: bs, z :: cs, i, db, dc, dd, h => by
    match i with
    | 0 => rfl
    | j + 1 =>
      simp only [zip3, List.getD_cons_succ]
      exact zip3_getD as bs cs j db dc dd (by simp at h; omega)

theorem match_iff_get (Q C : Dict) :
    _match Q C = true ↔ ∀ p ∈ Q, dictGet C p.1 = p.2 := by
  simp [_match, List.all_eq_true]

theorem dictGet_cons_ne (C : Dict) (k x : String) (v : PyVal) (h : x ≠ k) :
    dictGet ((k, v) :: C) x = dictGet C x := by
  have hk : (k == x) = false := by simpa using Ne.symm h
  simp [dictGet, dictFind?, List.find?_cons, hk]

theorem dictFind?_erase_self (C : Dict) (k : String) :
    dictFind? (dictErase C k) k = Option.none := by
  induction C with
  | nil => rfl
  | cons p ps ih =>
    by_cases h : p.1 = k
    · simpa [dictErase, List.filter_cons, h] using ih
    · have hk : (p.1 == k) = false := by simpa using h
      simpa [dictErase, List.filter_cons, hk, dictFind?, List.find?_cons] using ih

theorem oneHot_zip_any (n : String) :
    ∀ (cols : List String) (row0 : List ℚ),
    ((cols.map (fun c => if n = c then (1 : ℕ) else 0)).zip row0).any
        (fun p => p.2 != 0 && p.1 != 0) =
      (cols.zip row0).any (fun cw => cw.2 != 0 && n == cw.1)
  | [], row0 => by simp
  | c :: cs, [] => by simp
  | c :: cs, w :: ws => by
    by_cases h : n = c
    · subst h
      simp [List.zip_cons_cons, oneHot_zip_any n cs ws]
    · have hb : (n == c) = false := by simpa using h
      simp [List.zip_cons_cons, h, hb, oneHot_zip_any n cs ws]

theorem femaSelection_oneHot (cols : List String) (row0 : List ℚ)
    (names : List String) :
    femaSelection row0 (names.map (fun n => oneHotRow cols n)) =
      names.map (fun n =>
        (cols.zip row0).any (fun cw => cw.2 != 0 && n == cw.1)) := by
  unfold femaSelection
  rw [List.map_map]
  apply List.map_congr_left
  intro n _
  simpa [Function.comp, oneHotRow] using oneHot_zip_any n cols row0

theorem any_zip_nonzero (r : List ℕ) (w0 : List ℚ) :
    ((r.zip w0).any (fun p => p.2 != 0 && p.1 != 0) = true) ↔
      ∃ j, r.getD j 0 ≠ 0 ∧ w0.getD j 0 ≠ 0 ∧ j < r.length ∧ j < w0.length := by
  induction r generalizing w0 with
  | nil => simp
  | cons a as ih =>
    cases w0 with
    | nil => simp
    | cons b bs =>
      simp only [List.zip_cons_cons, List.any_cons, Bool.or_eq_true, ih]
      constructor
      · rintro (h | ⟨j, hj⟩)
        · refine ⟨0, ?_⟩
          simp only [bne_iff_ne, Bool.and_eq_true, ne_eq] at h
          simp [h.1, h.2]
        · refine ⟨j + 1, ?_⟩
          simp only [List.getD_cons_succ, List.length_cons]
          exact ⟨hj.1, hj.2.1, by omega, by omega⟩
      · rintro ⟨j, h1, h2, h3, h4⟩
        cases j with
        | zero =>
          left
          simp only [List.getD_cons_zero] at h1 h2
          simp [h1, h2]
        | succ j =>
          right
          simp only [List.getD_cons_succ, List.length_cons] at h1 h2 h3 h4
          exact ⟨j, h1, h2, by omega, by omega⟩

theorem contrastLoop_ok_eq (out_ents : Dict)
    (f : List (List ℚ) → String → Option (MapKind → Option β)) :
    ∀ (cs : List (String × List (List ℚ) × String)) (lo : LoopOut β),
    contrastLoop out_ents f cs = Except.ok lo →
    lo = ⟨cs.filterMap (fun c => mapsAt (f c.2.1 c.2.2) MapKind.effect_size),
          cs.filterMap (fun c => mapsAt (f c.2.1 c.2.2) MapKind.effect_variance),
          cs.filterMap (fun c => mapsAt (f c.2.1 c.2.2) MapKind.z_score),
          cs.filterMap (fun c => mapsAt (f c.2.1 c.2.2) MapKind.p_value),
          cs.filterMap (fun c => mapsAt (f c.2.1 c.2.2) MapKind.stat),
          cs.map (fun c => mkRecord out_ents c.1 c.2.2)⟩
  | [], lo, h => by
    injection h with h
    subst h
    rfl
  | c :: rest, lo, h => by
    simp only [contrastLoop] at h
    cases hf : f c.2.1 c.2.2 with
    | none => rw [hf] at h; cases h
    | some m =>
      rw [hf] at h
      cases hloop : contrastLoop out_ents f rest with
      | error e => rw [hloop] at h; cases h
      | ok acc =>
        rw [hloop] at h
        injection h with h
        subst h
        rw [contrastLoop_ok_eq out_ents f rest acc hloop]
        simp only [List.filterMap_cons, List.map_cons, mapsAt, hf]
        cases m MapKind.effect_size <;> cases m MapKind.effect_variance <;>
          cases m MapKind.z_score <;> cases m MapKind.p_value <;>
          cases m MapKind.stat <;> simp [consIf]

theorem contrastLoop_ok_of_forall (out_ents : Dict)
    (f : List (List ℚ) → String → Option (MapKind → Option β)) :
    ∀ cs : List (String × List (List ℚ) × String),
    (∀ c ∈ cs, f c.2.1 c.2.2 ≠ Option.none) →
    ∃ lo, contrastLoop out_ents f cs = Except.ok lo
  | [], _ => ⟨_, rfl⟩
  | c :: rest, h => by
    rcases contrastLoop_ok_of_forall out_ents f rest
        (fun d hd => h d (List.mem_cons_of_mem c hd)) with ⟨acc, hacc⟩
    cases hf : f c.2.1 c.2.2 with
    | none => exact absurd hf (h c (List.mem_cons_self c rest))
    | some m =>
      refine ⟨⟨consIf (m MapKind.effect_size) acc.effs,
        consIf (m MapKind.effect_variance) acc.vars,
        consIf (m MapKind.z_score) acc.zs,
        consIf (m MapKind.p_value) acc.ps,
        consIf (m MapKind.stat) acc.stats,
        mkRecord out_ents c.1 c.2.2 :: acc.metas⟩, ?_⟩
      simp only [contrastLoop, hf, hacc]

theorem contrastLoop_error_of_exists (out_ents : Dict)
    (f : List (List ℚ) → String → Option (MapKind → Option β)) :
    ∀ cs : List (String × List (List ℚ) × String),
    (∃ c ∈ cs, f c.2.1 c.2.2 = Option.none) →
    contrastLoop out_ents f cs = Except.error indexErrorMsg
  | [], h => absurd h (by simp)
  | c :: rest, h => by
    cases hf : f c.2.1 c.2.2 with
    | none => simp only [contrastLoop, hf]
    | some m =>
      have hrest : ∃ d ∈ rest, f d.2.1 d.2.2 = Option.none := by
        rcases h with ⟨d, hd, hdn⟩
        rcases List.mem_cons.mp hd with rfl | hd
        · exact absurd hdn (by simp [hf])
        · exact ⟨d, hd, hdn⟩
      simp only [contrastLoop, hf,
        contrastLoop_error_of_exists out_ents f rest hrest]

theorem contrastMaps_eq_none_iff (combine : List β → List β → β × β × β)
    (engine : List β → List String × List (List ℕ) → List (List ℚ) → String →
      MapKind → Option β)
    (dm : List String × List (List ℕ)) (feff fvar : List β)
    (w : List (List ℚ)) (t : String) :
    contrastMaps combine engine dm feff fvar w t = Option.none ↔
      (t = "FEMA" ∧ w = []) := by
  by_cases ht : t = "FEMA"
  · subst ht
    cases w <;> simp [contrastMaps]
  · simp [contrastMaps, ht]

theorem filterMap_ne_nil_iff (f : γ → Option δ) (l : List γ) :
    l.filterMap f ≠ [] ↔ ∃ a ∈ l, f a ≠ Option.none := by
  rw [Ne, List.filterMap_eq_nil_iff]
  push_neg
  rfl

/-! ## Claim C1: resolvable declarations round-trip -/

/-- C1. Whenever every regressor carrying a non-zero weight in some row of a
declaration is present in the design regressor list (`contrastMissing` is
false), `prepare_contrasts` includes the resolved contrast carrying the
declared name and type, and its weight matrix has one row per declared row,
one entry per design regressor in design-column order, each entry being the
declared weight when the row names that regressor and 0 otherwise. -/
theorem prepare_contrasts_roundtrip (cs : List Contrast) (R : List String)
    (c : Contrast) (hc : c ∈ cs) (hres : contrastMissing c R = false) :
    (c.name, resolveWeights c.weights R, c.type) ∈
        prepare_contrasts (Option.some cs) R
    ∧ (resolveWeights c.weights R).length = c.weights.length
    ∧ (∀ i, i < c.weights.length →
        ((resolveWeights c.weights R).getD i []).length = R.length)
    ∧ (∀ i j, i < c.weights.length → j < R.length →
        ((resolveWeights c.weights R).getD i []).getD j 0 =
          rowWeight (c.weights.getD i []) (R.getD j "")) := by
  refine ⟨?_, ?_, ?_, ?_⟩
  · rw [prepare_contrasts_some_eq]
    exact List.mem_map_of_mem _ (List.mem_filter.mpr ⟨hc, by simp [hres]⟩)
  · simp [resolveWeights]
  · intro i hi
    have h1 : i < (resolveWeights c.weights R).length := by
      simpa [resolveWeights] using hi
    rw [List.getD_eq_getElem _ _ h1]
    simp [resolveWeights]
  · intro i j hi hj
    have h1 : i < (resolveWeights c.weights R).length := by
      simpa [resolveWeights] using hi
    rw [List.getD_eq_getElem _ _ h1]
    simp only [resolveWeights, List.getElem_map]
    rw [List.getD_eq_getElem, List.getElem_map,
      List.getD_eq_getElem _ _ hi, List.getD_eq_getElem _ _ hj]
    simpa using hj

/-- Witness for C1 at Scenario A: the single declaration resolves against
regressors A, B, constant to the matrix with row 1, -1, 0. -/
theorem prepare_contrasts_roundtrip_witness :
    (declAB.name, resolveWeights declAB.weights ["A", "B", "constant"],
        declAB.type) ∈
      prepare_contrasts (Option.some [declAB]) ["A", "B", "constant"]
    ∧ prepare_contrasts (Option.some [declAB]) ["A", "B", "constant"] =
      [("A-B", [[1, -1, 0]], "T")] :=
  ⟨(prepare_contrasts_roundtrip [declAB] ["A", "B", "constant"] declAB
      (by decide) (by decide)).1,
    by decide⟩

/-! ## Claim C2: under-specified declarations are silently dropped -/

/-- C2. A declaration referencing an absent non-zero-weight regressor is
excluded entirely: the output is exactly the resolvable declarations, in
declaration order, so the output length is the number of declarations minus
the number of under-specified ones, and in Scenario B (regressor B absent)
the resolved list is empty. No error is raised: `prepare_contrasts` is a
total function. -/
theorem prepare_contrasts_silent_skip (cs : List Contrast) (R : List String) :
    prepare_contrasts (Option.some cs) R =
      (cs.filter (fun c => !contrastMissing c R)).map
        (fun c => (c.name, resolveWeights c.weights R, c.type))
    ∧ (prepare_contrasts (Option.some cs) R).length =
      cs.length - (cs.filter (fun c => contrastMissing c R)).length
    ∧ prepare_contrasts (Option.some [declAB]) ["A", "constant"] = [] := by
  refine ⟨prepare_contrasts_some_eq cs R, ?_, by decide⟩
  rw [prepare_contrasts_some_eq, List.length_map]
  have := length_filter_add (fun c => contrastMissing c R) cs
  omega

/-! ## Claim C8: undefined sentinel and empty weight lists -/

/-- C8. When the declared-contrasts input is the undefined sentinel,
`prepare_contrasts` returns the empty list for every regressor list (and
raises no error, being total); and a declaration whose weights list is empty
is retained in the output with an empty weight matrix rather than treated
as missing. -/
theorem prepare_contrasts_undefined_and_empty (R : List String)
    (cs : List Contrast) (c : Contrast) (hc : c ∈ cs) (hw : c.weights = []) :
    prepare_contrasts Option.none R = []
    ∧ (c.name, [], c.type) ∈ prepare_contrasts (Option.some cs) R := by
  refine ⟨rfl, ?_⟩
  rw [prepare_contrasts_some_eq]
  refine List.mem_map.mpr ⟨c, List.mem_filter.mpr ⟨hc, ?_⟩, ?_⟩
  · simp [contrastMissing, hw]
  · simp [resolveWeights, hw]

/-- Witness for C8: a concrete empty-weights declaration is retained. -/
theorem prepare_contrasts_undefined_and_empty_witness :
    prepare_contrasts Option.none ["A"] = []
    ∧ (emptyDecl.name, [], emptyDecl.type) ∈
      prepare_contrasts (Option.some [emptyDecl]) ["A"] :=
  prepare_contrasts_undefined_and_empty ["A"] [emptyDecl] emptyDecl
    (by decide) (by decide)

/-! ## Claim C3: metadata matcher semantics

The claim asserts that `_match Q C` is true iff every key of `Q` is present
in `C` with an equal value, and that removing a key of `Q` from a matching
`C` flips the result.  Because the source compares with `metadata.get(key)`
(which yields the `None` sentinel for an absent key), a query entry whose
value is `None` matches a candidate that lacks the key entirely, so both
parts fail; they hold once no query value is the `None` sentinel. -/

/-- Counterexample to C3 as stated: a query binding a key to the `None`
sentinel matches the empty candidate although the key is not present in it,
and removing that key from a matching candidate leaves the match true. -/
theorem match_none_value_counterexample :
    _match [("task", PyVal.none)] ([] : Dict) = true
    ∧ dictContains ([] : Dict) "task" = false
    ∧ _match [("task", PyVal.none)] [("task", PyVal.none)] = true
    ∧ _match [("task", PyVal.none)]
        (dictErase [("task", PyVal.none)] "task") = true := by
  decide

/-- C3 amended: for every query whose values are not the `None` sentinel,
`_match Q C` is true iff every key of `Q` is present in `C` with an equal
value; adding an entry for a key not named by `Q` never changes the result;
and removing from a matching candidate any key that appears in `Q` makes the
result false.  (The equivalence of `_match` with the all-pairs `get`
comparison of the spec holds definitionally: see `match_iff_get`.) -/
theorem match_entity_semantics (Q C : Dict)
    (hQ : ∀ p ∈ Q, p.2 ≠ PyVal.none) :
    (_match Q C = true ↔ ∀ p ∈ Q, dictFind? C p.1 = Option.some p.2)
    ∧ (∀ k v, (∀ p ∈ Q, p.1 ≠ k) →
        _match Q ((k, v) :: C) = _match Q C)
    ∧ (_match Q C = true → ∀ p ∈ Q, _match Q (dictErase C p.1) = false) := by
  refine ⟨?_, ?_, ?_⟩
  · rw [match_iff_get]
    constructor
    · intro h p hp
      have hg := h p hp
      have hne := hQ p hp
      unfold dictGet at hg
      cases hfind : dictFind? C p.1 with
      | none => rw [hfind] at hg; exact absurd hg.symm hne
      | some v => rw [hfind] at hg; simpa [hfind] using hg
    · intro h p hp
      rw [dictGet, h p hp]
      rfl
  · intro k v hk
    rw [Bool.eq_iff_iff, match_iff_get, match_iff_get]
    constructor
    · intro h p hp
      have := h p hp
      rwa [dictGet_cons_ne C k p.1 v (hk p hp)] at this
    · intro h p hp
      rw [dictGet_cons_ne C k p.1 v (hk p hp)]
      exact h p hp
  · intro hm p hp
    rw [Bool.eq_false_iff]
    intro hcontra
    have := (match_iff_get Q (dictErase C p.1)).mp hcontra p hp
    rw [dictGet, dictFind?_erase_self] at this
    exact hQ p hp this.symm

/-- Witness for C3 amended at a concrete query and candidate. -/
theorem match_entity_semantics_witness :
    _match [("subject", PyVal.str "01")]
        [("subject", PyVal.str "01"), ("task", PyVal.str "x")] = true ↔
      ∀ p ∈ [("subject", PyVal.str "01")],
        dictFind? [("subject", PyVal.str "01"), ("task", PyVal.str "x")] p.1 =
          Option.some p.2 :=
  (match_entity_semantics [("subject", PyVal.str "01")]
    [("subject", PyVal.str "01"), ("task", PyVal.str "x")] (by decide)).1

/-! ## Claim C4: the grouping design

The one-hot structure, the column set, and the row correspondence all hold,
but `pd.get_dummies` orders its columns by SORTING the distinct names, not
by first appearance, so the claimed column order is wrong. -/

/-- Counterexample to C4 as stated: for paired names B, A the grouping
design columns are the sorted list A, B, not the first-appearance list
B, A. -/
theorem grouping_design_order_counterexample :
    (get_dummies ["B", "A"]).1 = ["A", "B"]
    ∧ firstSeen ["B", "A"] = ["B", "A"]
    ∧ (get_dummies ["B", "A"]).1 ≠ firstSeen ["B", "A"] := by
  decide

/-- C4 amended: for every non-empty list of paired contrast names, the
grouping design is one-hot (each row consists of zeros and ones, with the
value one occurring exactly once, so each row sums to one), its column set
equals the set of distinct names among the filtered inputs, its columns are
duplicate-free and ordered by ascending code-point order of the distinct
names (rather than by first appearance), and its rows one-hot encode the
filtered inputs in their filtered order. -/
theorem grouping_design_one_hot (names : List String) (hne : names ≠ []) :
    (∀ c, c ∈ (get_dummies names).1 ↔ c ∈ names)
    ∧ (get_dummies names).1.Nodup
    ∧ (get_dummies names).1.Pairwise (fun a b => strLt a b = true)
    ∧ (get_dummies names).2 =
        names.map (fun n => oneHotRow (get_dummies names).1 n)
    ∧ ∀ r ∈ (get_dummies names).2,
        r.sum = 1 ∧ r.count 1 = 1 ∧ ∀ x ∈ r, x = 0 ∨ x = 1 := by
  refine ⟨fun c => mem_sortedUnique names c, sortedUnique_nodup names,
    sortedUnique_pairwise names, rfl, ?_⟩
  intro r hr
  rcases List.mem_map.mp hr with ⟨n, hn, rfl⟩
  have hmem : n ∈ sortedUnique names := (mem_sortedUnique names n).mpr hn
  rcases oneHotRow_mem (sortedUnique names) n hmem (sortedUnique_nodup names)
    with ⟨h1, h2⟩
  exact ⟨h1, h2, oneHotRow_entries (sortedUnique names) n⟩

/-- Witness for C4 amended at a concrete name list. -/
theorem grouping_design_one_hot_witness :
    (get_dummies ["A", "B"]).1.Nodup
    ∧ (get_dummies ["A", "B"]).2 = [[1, 0], [0, 1]] :=
  ⟨(grouping_design_one_hot ["A", "B"] (by decide)).2.1, by decide⟩

/-! ## Claim C10: unequal flattened input lengths are truncated silently -/

/-- C10. The filtering step pairs the flattened metadata, effect and
variance sequences position-wise up to the length of the shortest sequence
and silently ignores all trailing entries of the longer sequences (the
filtered triples are unchanged by truncating every sequence to the minimum
length, and `zip3` pairs exactly the first `min` positions); consequently
the filtered effects, filtered variances and names always have equal
lengths.  No error is raised: the whole pipeline stage is total. -/
theorem zip_truncates_silently (ents : Dict) (ms : List Dict)
    (es vs : List β) (sm : List (List Dict)) (em vm : List (List β)) :
    filterTriples ents ms es vs =
      filterTriples ents
        (ms.take (min (min ms.length es.length) vs.length))
        (es.take (min (min ms.length es.length) vs.length))
        (vs.take (min (min ms.length es.length) vs.length))
    ∧ (zip3 ms es vs).length = min (min ms.length es.length) vs.length
    ∧ (∀ i db de dv, i < min (min ms.length es.length) vs.length →
        (zip3 ms es vs).getD i (db, de, dv) =
          (ms.getD i db, es.getD i de, vs.getD i dv))
    ∧ (slEffects ents sm em vm).length = (slVariances ents sm em vm).length
    ∧ (slEffects ents sm em vm).length = (slNames ents sm em vm).length := by
  refine ⟨?_, zip3_length ms es vs, ?_, ?_, ?_⟩
  · unfold filterTriples
    rw [zip3_take ms es vs _ (le_refl _)]
  · intro i db de dv hi
    exact zip3_getD ms es vs i db de dv hi
  · simp [slEffects, slVariances]
  · simp [slEffects, slNames]

/-- Witness for C10 at concrete sequences of unequal lengths. -/
theorem zip_truncates_silently_witness :
    (zip3 [cexD1] [(1 : ℚ), 2] [(1 : ℚ), 2, 3]).getD 0 ([], 0, 0) =
      ([cexD1].getD 0 [], [(1 : ℚ), 2].getD 0 0, [(1 : ℚ), 2, 3].getD 0 0) :=
  (zip_truncates_silently [] [cexD1] [(1 : ℚ), 2] [(1 : ℚ), 2, 3]
    [] [] []).2.2.1 0 [] 0 0 (by decide)

theorem runSecondLevel_insufficient (combine : List β → List β → β × β × β)
    (engine : List β → List String × List (List ℕ) → List (List ℚ) → String →
      MapKind → Option β)
    (c0 : Contrast) (rest : List Contrast)
    (sm : List (List Dict)) (em vm : List (List β))
    (hcond : (slContrasts c0 rest sm em vm).any (fun c => c.2.2 != "FEMA") =
        true ∧ (slEffects c0.entities sm em vm).length < 2) :
    runSecondLevel combine engine c0 rest sm em vm =
      Except.error insufficientInputsMsg := by
  simp only [runSecondLevel, if_pos hcond]

theorem runSecondLevel_loop_error (combine : List β → List β → β × β × β)
    (engine : List β → List String × List (List ℕ) → List (List ℚ) → String →
      MapKind → Option β)
    (c0 : Contrast) (rest : List Contrast)
    (sm : List (List Dict)) (em vm : List (List β))
    (hcond : ¬((slContrasts c0 rest sm em vm).any (fun c => c.2.2 != "FEMA") =
        true ∧ (slEffects c0.entities sm em vm).length < 2))
    (e : String)
    (hloop : contrastLoop c0.entities (slMaps combine engine c0 sm em vm)
      (slContrasts c0 rest sm em vm) = Except.error e) :
    runSecondLevel combine engine c0 rest sm em vm = Except.error e := by
  simp only [runSecondLevel, if_neg hcond, hloop]

theorem runSecondLevel_loop_ok (combine : List β → List β → β × β × β)
    (engine : List β → List String × List (List ℕ) → List (List ℚ) → String →
      MapKind → Option β)
    (c0 : Contrast) (rest : List Contrast)
    (sm : List (List Dict)) (em vm : List (List β))
    (hcond : ¬((slContrasts c0 rest sm em vm).any (fun c => c.2.2 != "FEMA") =
        true ∧ (slEffects c0.entities sm em vm).length < 2))
    (lo : LoopOut β)
    (hloop : contrastLoop c0.entities (slMaps combine engine c0 sm em vm)
      (slContrasts c0 rest sm em vm) = Except.ok lo) :
    runSecondLevel combine engine c0 rest sm em vm =
      Except.ok
        { effect_maps := lo.effs
          variance_maps := lo.vars
          stat_maps := lo.stats
          contrast_metadata := lo.metas
          zscore_maps := if lo.zs.isEmpty then Option.none else Option.some lo.zs
          pvalue_maps :=
            if lo.ps.isEmpty then Option.none else Option.some lo.ps } := by
  simp only [runSecondLevel, if_neg hcond, hloop]

/-! ## Claim C6: the fatal errors of the second-level aggregator

The claimed error-iff misses an error path: a resolved FEMA declaration
whose weights list is empty is retained by `prepare_contrasts` (the C8 edge
case) and then raises an IndexError at `weights[0]` even when every
resolved contrast is of type FEMA and a single input is present. -/

/-- Counterexample to C6 as stated: an all-FEMA invocation whose single
FEMA declaration has an empty weights list raises the IndexError although
no resolved contrast has a type other than FEMA, so the claimed
"raises a fatal error iff a non-FEMA contrast meets fewer than two filtered
inputs" fails at this input. -/
theorem second_level_index_error_counterexample :
    runSecondLevel cexCombine cexNoneEngine cexFEmpty [] [[cexD1]]
        [[(5 : ℚ)]] [[(7 : ℚ)]] = Except.error indexErrorMsg
    ∧ ¬((slContrasts cexFEmpty [] [[cexD1]] [[(5 : ℚ)]] [[(7 : ℚ)]]).any
          (fun c => c.2.2 != "FEMA") = true
        ∧ (slEffects (β := ℚ) cexFEmpty.entities [[cexD1]] [[(5 : ℚ)]]
            [[(7 : ℚ)]]).length < 2) := by
  constructor
  · rfl
  · decide

/-- C6 amended: the aggregator raises the insufficient-inputs diagnostic
iff at least one resolved contrast has a type other than FEMA while fewer
than two filtered inputs are available; past that check it raises the
IndexError iff some resolved FEMA contrast has an empty weight matrix;
these are the only errors, so every invocation whose resolved contrasts are
all of type FEMA with non-empty weight matrices is accepted — in particular
with a single filtered input; and the modelled inverse-variance
fixed-effects combination of a single input with non-zero variance is a
pass-through of that input. -/
theorem second_level_input_requirement (combine : List β → List β → β × β × β)
    (engine : List β → List String × List (List ℕ) → List (List ℚ) → String →
      MapKind → Option β)
    (c0 : Contrast) (rest : List Contrast)
    (sm : List (List Dict)) (em vm : List (List β)) :
    ((∃ e, runSecondLevel combine engine c0 rest sm em vm = Except.error e) ↔
      (((slContrasts c0 rest sm em vm).any (fun c => c.2.2 != "FEMA") = true ∧
          (slEffects c0.entities sm em vm).length < 2) ∨
        ∃ c ∈ slContrasts c0 rest sm em vm, c.2.2 = "FEMA" ∧ c.2.1 = []))
    ∧ (runSecondLevel combine engine c0 rest sm em vm =
          Except.error insufficientInputsMsg ↔
        ((slContrasts c0 rest sm em vm).any (fun c => c.2.2 != "FEMA") = true ∧
          (slEffects c0.entities sm em vm).length < 2))
    ∧ (runSecondLevel combine engine c0 rest sm em vm =
          Except.error indexErrorMsg ↔
        (¬((slContrasts c0 rest sm em vm).any (fun c => c.2.2 != "FEMA") =
              true ∧
            (slEffects c0.entities sm em vm).length < 2) ∧
          ∃ c ∈ slContrasts c0 rest sm em vm, c.2.2 = "FEMA" ∧ c.2.1 = []))
    ∧ ((∀ c ∈ slContrasts c0 rest sm em vm, c.2.2 = "FEMA" ∧ c.2.1 ≠ []) →
        ∃ out, runSecondLevel combine engine c0 rest sm em vm = Except.ok out)
    ∧ (∀ e v : ℚ, v ≠ 0 → ffxCombine [e] [v] = (e, v)) := by
  have hffx : ∀ e v : ℚ, v ≠ 0 → ffxCombine [e] [v] = (e, v) := by
    intro e v hv
    have hinv : (1 : ℚ) / v ≠ 0 := by simp [hv]
    simp only [ffxCombine, List.map_cons, List.map_nil, List.sum_cons,
      List.sum_nil, List.zip_cons_cons, List.zip_nil_right, Prod.mk.injEq]
    constructor
    · field_simp
    · rw [add_zero, one_div_one_div]
  have hmsgs : insufficientInputsMsg ≠ indexErrorMsg := by decide
  by_cases hcond :
      (slContrasts c0 rest sm em vm).any (fun c => c.2.2 != "FEMA") = true ∧
        (slEffects (β := β) c0.entities sm em vm).length < 2
  · have hrun := runSecondLevel_insufficient combine engine c0 rest sm em vm
      hcond
    refine ⟨?_, ?_, ?_, ?_, hffx⟩
    · rw [hrun]
      exact iff_of_true ⟨insufficientInputsMsg, rfl⟩ (Or.inl hcond)
    · rw [hrun]
      exact iff_of_true rfl hcond
    · rw [hrun]
      constructor
      · intro hcontra
        injection hcontra with hmsg
        exact absurd hmsg hmsgs
      · rintro ⟨hn, _⟩
        exact absurd hcond hn
    · intro hall
      rcases hcond with ⟨hany, _⟩
      rcases List.any_eq_true.mp hany with ⟨c, hcmem, hcne⟩
      exact absurd (hall c hcmem).1 (by simpa using hcne)
  · by_cases hidx : ∃ c ∈ slContrasts c0 rest sm em vm,
        c.2.2 = "FEMA" ∧ c.2.1 = []
    · have hnone : ∃ c ∈ slContrasts c0 rest sm em vm,
          slMaps combine engine c0 sm em vm c.2.1 c.2.2 = Option.none := by
        rcases hidx with ⟨c, hc, ht, hwempty⟩
        exact ⟨c, hc, (contrastMaps_eq_none_iff combine engine
          (get_dummies (slNames c0.entities sm em vm))
          (slEffects c0.entities sm em vm) (slVariances c0.entities sm em vm)
          c.2.1 c.2.2).mpr ⟨ht, hwempty⟩⟩
      have hloop := contrastLoop_error_of_exists c0.entities
        (slMaps combine engine c0 sm em vm) (slContrasts c0 rest sm em vm)
        hnone
      have hrun := runSecondLevel_loop_error combine engine c0 rest sm em vm
        hcond _ hloop
      refine ⟨?_, ?_, ?_, ?_, hffx⟩
      · rw [hrun]
        exact iff_of_true ⟨indexErrorMsg, rfl⟩ (Or.inr hidx)
      · rw [hrun]
        constructor
        · intro hcontra
          injection hcontra with hmsg
          exact absurd hmsg.symm hmsgs
        · intro hc
          exact absurd hc hcond
      · rw [hrun]
        exact iff_of_true rfl ⟨hcond, hidx⟩
      · intro hall
        rcases hidx with ⟨c, hc, _, hwempty⟩
        exact absurd hwempty (hall c hc).2
    · have hsome : ∀ c ∈ slContrasts c0 rest sm em vm,
          slMaps combine engine c0 sm em vm c.2.1 c.2.2 ≠ Option.none := by
        intro c hc hn
        exact hidx ⟨c, hc, (contrastMaps_eq_none_iff combine engine
          (get_dummies (slNames c0.entities sm em vm))
          (slEffects c0.entities sm em vm) (slVariances c0.entities sm em vm)
          c.2.1 c.2.2).mp hn⟩
      rcases contrastLoop_ok_of_forall c0.entities
        (slMaps combine engine c0 sm em vm) (slContrasts c0 rest sm em vm)
        hsome with ⟨lo, hloop⟩
      have hrun := runSecondLevel_loop_ok combine engine c0 rest sm em vm
        hcond lo hloop
      refine ⟨?_, ?_, ?_, ?_, hffx⟩
      · rw [hrun]
        constructor
        · rintro ⟨e, he⟩
          cases he
        · rintro (hc | hi)
          · exact absurd hc hcond
          · exact absurd hi hidx
      · rw [hrun]
        constructor
        · intro hcontra
          cases hcontra
        · intro hc
          exact absurd hc hcond
      · rw [hrun]
        constructor
        · intro hcontra
          cases hcontra
        · rintro ⟨_, hi⟩
          exact absurd hi hidx
      · intro _
        exact ⟨_, hrun⟩

/-- Witness for C6 amended: an all-FEMA invocation with one filtered input
and a non-empty weight matrix is accepted, and the modelled combiner passes
a single input through. -/
theorem second_level_input_requirement_witness :
    (∃ out, runSecondLevel cexCombine cexNoneEngine cexFA [] [[cexD1]]
        [[(5 : ℚ)]] [[(7 : ℚ)]] = Except.ok out)
    ∧ ffxCombine [3] [2] = (3, 2) :=
  ⟨(second_level_input_requirement cexCombine cexNoneEngine cexFA [] [[cexD1]]
      [[(5 : ℚ)]] [[(7 : ℚ)]]).2.2.2.1 (by decide),
    (second_level_input_requirement cexCombine cexNoneEngine cexFA [] [[cexD1]]
      [[(5 : ℚ)]] [[(7 : ℚ)]]).2.2.2.2 3 2 (by norm_num)⟩

/-! ## Claim C5: FEMA contrasts combine the first-row-selected inputs

The selection consults only the first row of the weight matrix
(`weights[0]`), so the claim as stated — selection wherever "the weights"
are non-zero — fails for multi-row FEMA weight matrices; and a FEMA weight
matrix with no rows raises an IndexError instead of producing maps. -/

/-- Counterexample to C5 as stated: a FEMA weight matrix whose first row is
zero but whose second row weights column A.  The any-row reading selects
the single input, yet the code selects nothing and hands the external
combiner empty lists (the stand-in combiner reports 0 selected effects). -/
theorem fema_first_row_counterexample :
    femaSelection ([[(0 : ℚ)], [1]].headD []) (get_dummies ["A"]).2 = [false]
    ∧ specAnyRowMask ["A"] [[0], [1]] ["A"] = [true]
    ∧ maskSelect (femaSelection ([[(0 : ℚ)], [1]].headD [])
        (get_dummies ["A"]).2) [(7 : ℚ)] = []
    ∧ maskSelect (specAnyRowMask ["A"] [[0], [1]] ["A"]) [(7 : ℚ)] = [7]
    ∧ mapsAt (contrastMaps cexCombine cexNoneEngine (get_dummies ["A"]) [7] [7]
        [[0], [1]] "FEMA") MapKind.effect_size = Option.some 0
    ∧ ([] : List ℚ) ≠ [7] := by
  decide

/-- C5 amended: for every FEMA contrast resolved at the second level whose
weight matrix has at least one row, the aggregator selects exactly those
filtered inputs whose grouping-design row is truthy in at least one column
at which the FIRST row of the weight matrix is non-zero, hands the selected
effect and variance lists to the external fixed-effects combiner without
consulting the fitted engine model (the engine argument is arbitrary and
absent from the result), and produces exactly the kinds effect_size,
effect_variance and stat — no z_score and no p_value.  A resolved FEMA
contrast whose weight matrix has no rows instead fails at `weights[0]`
(the IndexError, modelled as `Option.none`), producing no maps at all. -/
theorem fema_combines_first_row_selection
    (combine : List β → List β → β × β × β)
    (engine : List β → List String × List (List ℕ) → List (List ℚ) → String →
      MapKind → Option β)
    (names : List String) (feff fvar : List β) (w : List (List ℚ))
    (hw : w ≠ []) :
    mapsAt (contrastMaps combine engine (get_dummies names) feff fvar w
        "FEMA") MapKind.effect_size =
      Option.some (combine (maskSelect (row0Mask names w) feff)
        (maskSelect (row0Mask names w) fvar)).1
    ∧ mapsAt (contrastMaps combine engine (get_dummies names) feff fvar w
        "FEMA") MapKind.effect_variance =
      Option.some (combine (maskSelect (row0Mask names w) feff)
        (maskSelect (row0Mask names w) fvar)).2.1
    ∧ mapsAt (contrastMaps combine engine (get_dummies names) feff fvar w
        "FEMA") MapKind.stat =
      Option.some (combine (maskSelect (row0Mask names w) feff)
        (maskSelect (row0Mask names w) fvar)).2.2
    ∧ mapsAt (contrastMaps combine engine (get_dummies names) feff fvar w
        "FEMA") MapKind.z_score = Option.none
    ∧ mapsAt (contrastMaps combine engine (get_dummies names) feff fvar w
        "FEMA") MapKind.p_value = Option.none
    ∧ contrastMaps combine engine (get_dummies names) feff fvar w "FEMA" ≠
        Option.none
    ∧ contrastMaps combine engine (get_dummies names) feff fvar
        ([] : List (List ℚ)) "FEMA" = Option.none := by
  cases w with
  | nil => exact absurd rfl hw
  | cons r ws =>
    have hsel : row0Mask names (r :: ws) =
        femaSelection r (get_dummies names).2 := by
      simpa [get_dummies, row0Mask] using
        (femaSelection_oneHot (sortedUnique names) r names).symm
    refine ⟨?_, ?_, ?_, rfl, rfl, ?_, rfl⟩
    · rw [hsel]
      rfl
    · rw [hsel]
      rfl
    · rw [hsel]
      rfl
    · simp [contrastMaps]

/-- Witness for C5 amended at a concrete single-row FEMA contrast. -/
theorem fema_combines_first_row_selection_witness :
    mapsAt (contrastMaps cexCombine cexNoneEngine (get_dummies ["A"])
        [(7 : ℚ)] [7] [[1]] "FEMA") MapKind.effect_size =
      Option.some (cexCombine (maskSelect (row0Mask ["A"] [[1]]) [(7 : ℚ)])
        (maskSelect (row0Mask ["A"] [[1]]) [(7 : ℚ)])).1 :=
  (fema_combines_first_row_selection cexCombine cexNoneEngine ["A"]
    [(7 : ℚ)] [7] [[1]] (by decide)).1

/-! ## Claim C9: later weight rows never affect FEMA selection -/

/-- C9. For a FEMA weight matrix with more than one row, the input
selection and hence the whole per-contrast result depend only on the first
row: replacing the matrix by any matrix with the same first row leaves the
result unchanged, and a grouping-design row is selected iff it is non-zero
at some column where row 0 is non-zero. -/
theorem fema_selection_ignores_later_rows
    (combine : List β → List β → β × β × β)
    (engine : List β → List String × List (List ℕ) → List (List ℚ) → String →
      MapKind → Option β)
    (dm : List String × List (List ℕ)) (feff fvar : List β)
    (w w' : List (List ℚ)) (hrows : 1 < w.length)
    (hhead : w.head? = w'.head?) :
    contrastMaps combine engine dm feff fvar w "FEMA" =
      contrastMaps combine engine dm feff fvar w' "FEMA"
    ∧ ∀ i, ((femaSelection (w.headD []) dm.2).getD i false = true ↔
        ∃ j, (dm.2.getD i []).getD j 0 ≠ 0 ∧ (w.headD []).getD j 0 ≠ 0 ∧
          j < (dm.2.getD i []).length ∧ j < (w.headD []).length) := by
  constructor
  · simp [contrastMaps, hhead]
  · intro i
    by_cases hi : i < dm.2.length
    · have h1 : i < (femaSelection (w.headD []) dm.2).length := by
        simpa [femaSelection] using hi
      rw [List.getD_eq_getElem _ _ h1]
      unfold femaSelection
      rw [List.getElem_map, List.getD_eq_getElem _ _ hi]
      exact any_zip_nonzero _ _
    · push_neg at hi
      rw [List.getD_eq_default _ _ (by simpa [femaSelection] using hi),
        List.getD_eq_default _ _ hi]
      simp

/-- Witness for C9: two concrete two-row FEMA matrices differing only in
the second row give identical per-contrast results. -/
theorem fema_selection_ignores_later_rows_witness :
    contrastMaps cexCombine cexNoneEngine (get_dummies ["A"]) [(7 : ℚ)] [7]
        [[1], [2]] "FEMA" =
      contrastMaps cexCombine cexNoneEngine (get_dummies ["A"]) [7] [7]
        [[1], [3]] "FEMA" :=
  (fema_selection_ignores_later_rows cexCombine cexNoneEngine
    (get_dummies ["A"]) [7] [7] [[1], [2]] [[1], [3]] (by decide) rfl).1

theorem optionalKey_some (zs : List β) :
    ∀ l, (if zs.isEmpty then Option.none else Option.some zs) =
      Option.some l → l = zs := by
  intro l hl
  by_cases hz : zs.isEmpty <;> simp [hz] at hl <;> exact hl.symm

theorem optionalKey_ne_none (zs : List β) :
    ((if zs.isEmpty then Option.none else Option.some zs) ≠ Option.none) ↔
      zs ≠ [] := by
  by_cases hz : zs.isEmpty
  · have : zs = [] := by simpa using hz
    simp [hz, this]
  · have : zs ≠ [] := by simpa using hz
    simp [hz, this]

/-! ## Claim C7: ordering and optionality of the assembled outputs

One metadata record per resolved contrast in processing order and the
presence conditions for the optional z-score/p-value keys all hold, but
each per-kind path list only receives entries from the contrasts that
produced that kind, so position-wise zipping of an emitted list with the
metadata records breaks as soon as one contrast skips a kind (a FEMA
contrast produces no z-score while a later T contrast does). -/

/-- Counterexample to C7 as stated: with a FEMA contrast followed by a T
contrast and an engine producing every kind, the emitted z-score list has
one entry while there are two metadata records, so position-wise zipping of
that emitted list with the metadata misaligns. -/
theorem second_level_zip_counterexample :
    (runSecondLevel cexCombine cexSomeEngine cexFA [cexTB] [[cexD1, cexD2]]
        [[(1 : ℚ), 2]] [[(1 : ℚ), 1]]).toOption.map
      (fun o => ((o.zscore_maps.getD []).length, o.contrast_metadata.length)) =
      Option.some (1, 2)
    ∧ (1 : ℕ) ≠ 2 := by
  constructor
  · decide
  · decide

/-- C7 amended: on every accepted invocation the metadata result carries
exactly one record per resolved contrast in processing order (each record
being the literal contrast/stat keys merged with the query entities, the
entities taking precedence on collision); each per-kind output list
contains, in the same processing order, exactly one entry per contrast that
produced that kind (so position-wise zipping with the metadata is valid
precisely when every contrast produced the kind); and the z-score and
p-value result keys are present iff at least one contrast produced a
z_score or p_value map respectively. -/
theorem second_level_assembly (combine : List β → List β → β × β × β)
    (engine : List β → List String × List (List ℕ) → List (List ℚ) → String →
      MapKind → Option β)
    (c0 : Contrast) (rest : List Contrast)
    (sm : List (List Dict)) (em vm : List (List β)) (out : SLOutput β)
    (h : runSecondLevel combine engine c0 rest sm em vm = Except.ok out) :
    out.contrast_metadata = (slContrasts c0 rest sm em vm).map
        (fun c => mkRecord c0.entities c.1 c.2.2)
    ∧ out.effect_maps = (slContrasts c0 rest sm em vm).filterMap
        (fun c => mapsAt (slMaps combine engine c0 sm em vm c.2.1 c.2.2)
          MapKind.effect_size)
    ∧ out.variance_maps = (slContrasts c0 rest sm em vm).filterMap
        (fun c => mapsAt (slMaps combine engine c0 sm em vm c.2.1 c.2.2)
          MapKind.effect_variance)
    ∧ out.stat_maps = (slContrasts c0 rest sm em vm).filterMap
        (fun c => mapsAt (slMaps combine engine c0 sm em vm c.2.1 c.2.2)
          MapKind.stat)
    ∧ (∀ l, out.zscore_maps = Option.some l →
        l = (slContrasts c0 rest sm em vm).filterMap
          (fun c => mapsAt (slMaps combine engine c0 sm em vm c.2.1 c.2.2)
            MapKind.z_score))
    ∧ (∀ l, out.pvalue_maps = Option.some l →
        l = (slContrasts c0 rest sm em vm).filterMap
          (fun c => mapsAt (slMaps combine engine c0 sm em vm c.2.1 c.2.2)
            MapKind.p_value))
    ∧ (out.zscore_maps ≠ Option.none ↔ ∃ c ∈ slContrasts c0 rest sm em vm,
        mapsAt (slMaps combine engine c0 sm em vm c.2.1 c.2.2)
          MapKind.z_score ≠ Option.none)
    ∧ (out.pvalue_maps ≠ Option.none ↔ ∃ c ∈ slContrasts c0 rest sm em vm,
        mapsAt (slMaps combine engine c0 sm em vm c.2.1 c.2.2)
          MapKind.p_value ≠ Option.none) := by
  by_cases hcond :
      (slContrasts c0 rest sm em vm).any (fun c => c.2.2 != "FEMA") = true ∧
        (slEffects (β := β) c0.entities sm em vm).length < 2
  · simp only [runSecondLevel, if_pos hcond] at h
    cases h
  · simp only [runSecondLevel, if_neg hcond] at h
    cases hloop : contrastLoop c0.entities (slMaps combine engine c0 sm em vm)
        (slContrasts c0 rest sm em vm) with
    | error e =>
      rw [hloop] at h
      cases h
    | ok lo =>
      rw [hloop] at h
      injection h with h
      subst h
      have hlo := contrastLoop_ok_eq c0.entities
        (slMaps combine engine c0 sm em vm) (slContrasts c0 rest sm em vm) lo
        hloop
      subst hlo
      refine ⟨rfl, rfl, rfl, rfl, ?_, ?_, ?_, ?_⟩
      · intro l hl
        exact optionalKey_some _ l hl
      · intro l hl
        exact optionalKey_some _ l hl
      · exact (optionalKey_ne_none _).trans (filterMap_ne_nil_iff _ _)
      · exact (optionalKey_ne_none _).trans (filterMap_ne_nil_iff _ _)

/-- Witness for C7 amended: metadata of a concrete accepted invocation is
one record per contrast in processing order. -/
theorem second_level_assembly_witness :
    cexOut.contrast_metadata =
      (slContrasts cexFA [] [[cexD1]] [[(5 : ℚ)]] [[(7 : ℚ)]]).map
        (fun c => mkRecord cexFA.entities c.1 c.2.2) :=
  (second_level_assembly cexCombine cexNoneEngine cexFA [] [[cexD1]]
    [[(5 : ℚ)]] [[(7 : ℚ)]] cexOut (by rfl)).1
